import Mathlib

/-!
Shallow embedding of the `minigrep` library (`src/lib.rs`) and verification of
its specification. Strings are modelled as `List Char`; Rust's `str::lines`
(split at `'\n'`, strip a `'\r'` that immediately precedes the `'\n'`, no
trailing empty line for a terminated final line) is modelled by `lines`;
`str::contains` is modelled by the executable `containsSubstring`, proved
equivalent to `List.IsInfix`; `str::to_lowercase` is modelled as the
character-wise lowercase map, per the specification's simple-lowercase
convention.
-/

namespace Minigrep

/-- Convert a Lean string literal to the `List Char` representation used here. -/
def toL (s : String) : List Char := s.data

/-- Embedding of Rust `str::lines`: segments are terminated by `'\n'`; a
`'\r'` immediately before the terminating `'\n'` is stripped; the final
segment needs no terminator and, when the text ends with a terminator, no
empty final line is produced. -/
def lines : List Char → List (List Char)
  | [] => []
  | '\n' :: rest => [] :: lines rest
  | '\r' :: '\n' :: rest => [] :: lines rest
  | c :: rest =>
    match lines rest with
    | [] => [[c]]
    | l :: ls => (c :: l) :: ls

/-- Embedding of Rust `str::contains` for string patterns: `needle` occurs as
a contiguous substring of the haystack. -/
def containsSubstring (needle : List Char) : List Char → Bool
  | [] => needle.isEmpty
  | c :: rest => needle.isPrefixOf (c :: rest) || containsSubstring needle rest

/-- Embedding of `search` from `src/lib.rs`: keep, in order, the lines of
`contents` that contain `query`. -/
def search (query contents : List Char) : List (List Char) :=
  (lines contents).filter (fun line => containsSubstring query line)

/-- Embedding of `str::to_lowercase` as a character-wise lowercase map (the
specification fixes a straightforward lowercase transform; Unicode
special-casing is out of scope). -/
def toLowercase (s : List Char) : List Char := s.map Char.toLower

/-- Embedding of `search_case_insensitive` from `src/lib.rs`: lowercase the
query once, keep the lines whose lowercased copy contains it, returning the
original line text. -/
def search_case_insensitive (query contents : List Char) : List (List Char) :=
  let q := toLowercase query
  (lines contents).filter (fun line => containsSubstring q (toLowercase line))

/-- The configuration produced by the resolver (`Config` in `src/lib.rs`). -/
structure Config where
  query : List Char
  filename : List Char
  case_sensitive : Bool
deriving DecidableEq, Repr

/-- The error string returned when no query argument is supplied. -/
def missingQueryMsg : List Char := toL "Didn\x27t get a query string"

/-- The error string returned when no filename argument is supplied. -/
def missingFilenameMsg : List Char := toL "Didn\x27t get a filename"

/-- Embedding of `Config::new`: skip the first argument (program name), take
the next as query and the one after as filename; `caseInsensitiveEnv` is the
value of the `CASE_INSENSITIVE` environment variable (`none` when unset), and
`case_sensitive` holds exactly when the lookup fails, i.e. the variable is
unset. Extra arguments are ignored. -/
def Config.new (args : List (List Char)) (caseInsensitiveEnv : Option (List Char)) :
    Except (List Char) Config :=
  match args.drop 1 with
  | [] => Except.error missingQueryMsg
  | [_] => Except.error missingFilenameMsg
  | q :: f :: _ =>
    Except.ok { query := q, filename := f, case_sensitive := caseInsensitiveEnv.isNone }

/-- The run orchestrator's error: a file-read failure wrapping the underlying
I/O error (modelled as its message). -/
inductive RunError where
  | FileReadError (underlying : List Char)
deriving DecidableEq, Repr

/-- Embedding of `run`: read the whole file (the file system is passed in as
`readFile`, mapping a filename to contents or an I/O error), dispatch on
`case_sensitive`, and print each matching line. The first component is the
returned `Result`, the second the sequence of lines written to standard
output. -/
def run (readFile : List Char → Except (List Char) (List Char)) (config : Config) :
    Except RunError Unit × List (List Char) :=
  match readFile config.filename with
  | Except.error e => (Except.error (RunError.FileReadError e), [])
  | Except.ok contents =>
    let results :=
      if config.case_sensitive then search config.query contents
      else search_case_insensitive config.query contents
    (Except.ok (), results)

/-- Modelled from the claim text (C1) and used only to compare it against the
implementation: split the contents on the newline character, with no trailing
terminator required on the final line (a final terminator produces no extra
empty line) and no other transformation of the line text. -/
def splitLinesSpec : List Char → List (List Char)
  | [] => []
  | '\n' :: rest => [] :: splitLinesSpec rest
  | c :: rest =>
    match splitLinesSpec rest with
    | [] => [[c]]
    | l :: ls => (c :: l) :: ls

/-- `List.isPrefixOf` decides `List.IsPrefix` (restated locally). -/
theorem isPrefixOf_true_iff {l₁ l₂ : List Char} : l₁.isPrefixOf l₂ = true ↔ l₁ <+: l₂ :=
  List.isPrefixOf_iff_prefix

/-- `containsSubstring` decides substring containment (`List.IsInfix`). -/
theorem containsSubstring_iff (n : List Char) :
    ∀ h : List Char, containsSubstring n h = true ↔ n <:+: h
  | [] => by
    simp only [containsSubstring, List.isEmpty_iff, List.infix_nil]
  | c :: rest => by
    rw [containsSubstring, Bool.or_eq_true, isPrefixOf_true_iff,
      containsSubstring_iff n rest]
    constructor
    · rintro (hp | hi)
      · exact hp.isInfix
      · obtain ⟨s, t, rfl⟩ := hi
        exact ⟨c :: s, t, rfl⟩
    · rintro ⟨s, t, he⟩
      cases s with
      | nil => exact Or.inl ⟨t, he⟩
      | cons a s =>
        simp only [List.cons_append, List.cons.injEq] at he
        obtain ⟨rfl, he⟩ := he
        exact Or.inr ⟨s, t, he⟩

/-- `lines` yields the empty sequence exactly on empty contents. -/
theorem lines_eq_nil_iff : ∀ c : List Char, lines c = [] ↔ c = [] := by
  intro c
  induction c using lines.induct with
  | case1 => simp [lines]
  | case2 rest ih => simp [lines]
  | case3 rest ih => simp [lines]
  | case4 c rest h1 h2 hrest ih =>
    rw [lines.eq_4 c rest h1 h2, hrest]
    simp
  | case5 c rest h1 h2 l ls hrest ih =>
    rw [lines.eq_4 c rest h1 h2, hrest]
    simp

/-- Infix containment is preserved by extending the list on the left. -/
theorem isInfix_cons (a : Char) {l r : List Char} (h : l <:+: r) : l <:+: a :: r := by
  obtain ⟨s, t, rfl⟩ := h
  exact ⟨a :: s, t, rfl⟩

/-- The first line produced by `lines` is a prefix of the text, and every
line produced is a contiguous substring of the text. -/
theorem lines_parts_verbatim : ∀ c : List Char,
    (∀ l ls, lines c = l :: ls → l <+: c) ∧ (∀ l ∈ lines c, l <:+: c) := by
  intro c
  induction c using lines.induct with
  | case1 =>
    refine ⟨fun l ls h => by simp [lines] at h, fun l hl => by simp [lines] at hl⟩
  | case2 rest ih =>
    obtain ⟨ihp, ihm⟩ := ih
    constructor
    · intro l ls h
      simp only [lines] at h
      rw [List.cons.injEq] at h
      exact h.1 ▸ List.nil_prefix
    · intro l hl
      simp only [lines, List.mem_cons] at hl
      rcases hl with rfl | hl
      · exact List.nil_infix
      · exact isInfix_cons _ (ihm l hl)
  | case3 rest ih =>
    obtain ⟨ihp, ihm⟩ := ih
    constructor
    · intro l ls h
      simp only [lines] at h
      rw [List.cons.injEq] at h
      exact h.1 ▸ List.nil_prefix
    · intro l hl
      simp only [lines, List.mem_cons] at hl
      rcases hl with rfl | hl
      · exact List.nil_infix
      · exact isInfix_cons _ (isInfix_cons _ (ihm l hl))
  | case4 c rest h1 h2 hrest ih =>
    rw [lines.eq_4 c rest h1 h2, hrest]
    constructor
    · intro l ls h
      rw [List.cons.injEq] at h
      exact h.1 ▸ (List.cons_prefix_cons.mpr ⟨rfl, List.nil_prefix⟩)
    · intro l hl
      rw [List.mem_singleton] at hl
      exact hl ▸ (List.cons_prefix_cons.mpr ⟨rfl, List.nil_prefix⟩).isInfix
  | case5 c rest h1 h2 l0 ls0 hrest ih =>
    obtain ⟨ihp, ihm⟩ := ih
    rw [lines.eq_4 c rest h1 h2, hrest]
    have hpref : c :: l0 <+: c :: rest :=
      List.cons_prefix_cons.mpr ⟨rfl, ihp l0 ls0 hrest⟩
    constructor
    · intro l ls h
      rw [List.cons.injEq] at h
      exact h.1 ▸ hpref
    · intro l hl
      rw [List.mem_cons] at hl
      rcases hl with rfl | hl
      · exact hpref.isInfix
      · exact isInfix_cons _ (ihm l (hrest ▸ List.mem_cons_of_mem l0 hl))

/-- No line produced by `lines` contains the newline character. -/
theorem lines_no_newline : ∀ c : List Char, ∀ l ∈ lines c, '\n' ∉ l := by
  intro c
  induction c using lines.induct with
  | case1 => intro l hl; simp [lines] at hl
  | case2 rest ih =>
    intro l hl
    simp only [lines, List.mem_cons] at hl
    rcases hl with rfl | hl
    · simp
    · exact ih l hl
  | case3 rest ih =>
    intro l hl
    simp only [lines, List.mem_cons] at hl
    rcases hl with rfl | hl
    · simp
    · exact ih l hl
  | case4 c rest h1 h2 hrest ih =>
    intro l hl
    rw [lines.eq_4 c rest h1 h2, hrest, List.mem_singleton] at hl
    subst hl
    intro hmem
    rw [List.mem_singleton] at hmem
    exact h1 hmem.symm
  | case5 c rest h1 h2 l0 ls0 hrest ih =>
    intro l hl
    rw [lines.eq_4 c rest h1 h2, hrest, List.mem_cons] at hl
    rcases hl with rfl | hl
    · intro hmem
      rw [List.mem_cons] at hmem
      rcases hmem with hc | hmem
      · exact h1 hc.symm
      · exact ih l0 (hrest ▸ List.mem_cons_self l0 ls0) hmem
    · exact ih l (hrest ▸ List.mem_cons_of_mem l0 hl)

/-- Modelled from the specification text: the number of newline-delimited
segments of a text - every newline character terminates one segment, and a
final run of characters without a terminator forms one additional segment. -/
def segmentCount (c : List Char) : Nat :=
  c.count '\n' + (if c = [] ∨ c.getLast? = some '\n' then 0 else 1)

/-- Prepending a non-newline character to a nonempty text does not change
its number of newline-delimited segments. -/
theorem segmentCount_cons_of_ne (c : Char) (rest : List Char) (h1 : ¬ c = '\n')
    (h2 : rest ≠ []) : segmentCount (c :: rest) = segmentCount rest := by
  obtain ⟨r, rs, rfl⟩ := List.exists_cons_of_ne_nil h2
  have hc : (c == '\n') = false := by
    rw [beq_eq_false_iff_ne]
    exact h1
  simp [segmentCount, List.count_cons, hc, List.getLast?_cons_cons]

/-- Prepending a newline adds exactly one newline-delimited segment. -/
theorem segmentCount_nl_cons (rest : List Char) :
    segmentCount ('\n' :: rest) = 1 + segmentCount rest := by
  rcases rest with _ | ⟨r, rs⟩
  · decide
  · by_cases hgl : (r :: rs).getLast? = some '\n' <;>
      simp [segmentCount, List.count_cons, List.getLast?_cons_cons, hgl] <;>
      omega

/-- A single non-newline character is one newline-delimited segment. -/
theorem segmentCount_single (c : Char) (h1 : ¬ c = '\n') : segmentCount [c] = 1 := by
  have hc : (c == '\n') = false := by
    rw [beq_eq_false_iff_ne]
    exact h1
  simp [segmentCount, List.count_cons, hc, List.getLast?_singleton, h1]

/-- The number of lines produced by `lines` equals the number of
newline-delimited segments of the text. -/
theorem lines_length : ∀ c : List Char, (lines c).length = segmentCount c := by
  intro c
  induction c using lines.induct with
  | case1 => rfl
  | case2 rest ih =>
    rw [lines.eq_2, List.length_cons, ih, segmentCount_nl_cons]
    omega
  | case3 rest ih =>
    rw [lines.eq_3, List.length_cons, ih,
      segmentCount_cons_of_ne _ _ (by decide) (List.cons_ne_nil _ _),
      segmentCount_nl_cons]
    omega
  | case4 c rest h1 h2 hrest ih =>
    have hre : rest = [] := (lines_eq_nil_iff rest).mp hrest
    subst hre
    rw [lines.eq_4 c [] h1 h2, hrest, segmentCount_single c h1]
    rfl
  | case5 c rest h1 h2 l0 ls0 hrest ih =>
    have hre : rest ≠ [] := by
      intro h
      rw [h] at hrest
      simp [lines] at hrest
    rw [lines.eq_4 c rest h1 h2, hrest, List.length_cons,
      segmentCount_cons_of_ne c rest h1 hre]
    rw [hrest, List.length_cons] at ih
    exact ih

/-- Appending a final newline to a text that is nonempty and ends in neither
a newline nor a carriage return does not change its lines. -/
theorem lines_append_newline : ∀ c : List Char, c ≠ [] →
    c.getLast? ≠ some '\n' → c.getLast? ≠ some '\x0d' →
    lines (c ++ ['\n']) = lines c := by
  intro c
  induction c using lines.induct with
  | case1 => intro h; exact absurd rfl h
  | case2 rest ih =>
    intro _ hn hr
    rcases rest with _ | ⟨r, rs⟩
    · exact absurd rfl hn
    · rw [List.getLast?_cons_cons] at hn hr
      have ihx := ih (List.cons_ne_nil r rs) hn hr
      rw [List.cons_append, lines.eq_2, lines.eq_2, ihx]
  | case3 rest ih =>
    intro _ hn hr
    rcases rest with _ | ⟨r, rs⟩
    · exact absurd rfl hn
    · rw [List.getLast?_cons_cons, List.getLast?_cons_cons] at hn hr
      have ihx := ih (List.cons_ne_nil r rs) hn hr
      rw [List.cons_append, List.cons_append, lines.eq_3, lines.eq_3, ihx]
  | case4 c rest h1 h2 hrest ih =>
    intro _ hn hr
    have hre : rest = [] := (lines_eq_nil_iff rest).mp hrest
    subst hre
    have hcr : ¬ c = '\x0d' := by
      intro h
      exact hr (by rw [List.getLast?_singleton, h])
    rw [List.singleton_append]
    rw [lines.eq_4 c ['\n'] h1 (fun rest1 hc _ => hcr hc)]
    rw [lines.eq_4 c [] h1 h2, hrest]
    rfl
  | case5 c rest h1 h2 l0 ls0 hrest ih =>
    intro _ hn hr
    have hre : rest ≠ [] := by
      intro h
      rw [(lines_eq_nil_iff rest).mpr h] at hrest
      exact List.noConfusion hrest
    obtain ⟨r, rs, rfl⟩ := List.exists_cons_of_ne_nil hre
    rw [List.getLast?_cons_cons] at hn hr
    have ihx := ih (List.cons_ne_nil r rs) hn hr
    rw [List.cons_append]
    rw [lines.eq_4 c ((r :: rs) ++ ['\n'])
      h1 (fun rest1 hc hcons => h2 rs hc (by
        rw [List.cons_append, List.cons.injEq] at hcons
        rw [hcons.1]))]
    rw [lines.eq_4 c (r :: rs) h1 h2]
    rw [ihx]

example : lines (toL "Rust:\nsafe, fast, productive.\nPick three.\nDuct tape.") =
    [toL "Rust:", toL "safe, fast, productive.", toL "Pick three.", toL "Duct tape."] := by
  decide

example : search (toL "duct") (toL "Rust:\nsafe, fast, productive.\nPick three.\nDuct tape.") =
    [toL "safe, fast, productive."] := by decide

example : search_case_insensitive (toL "rUsT")
    (toL "Rust:\nsafe, fast, productive.\nPick three.\nTrust me.") =
    [toL "Rust:", toL "Trust me."] := by decide

example : lines (toL "abc\x0d\n") = [toL "abc"] := by decide

example : lines (toL "abc\x0d") = [toL "abc\x0d"] := by decide

example : lines (toL "a\n") = [toL "a"] := by decide

example : lines (toL "") = [] := by decide

/-- `containsSubstring` coincides with deciding substring containment. -/
theorem containsSubstring_eq_decide (n h : List Char) :
    containsSubstring n h = decide (n <:+: h) := by
  by_cases hi : n <:+: h
  · rw [(containsSubstring_iff n h).mpr hi, decide_eq_true hi]
  · rw [decide_eq_false hi]
    cases hcs : containsSubstring n h
    · rfl
    · exact absurd ((containsSubstring_iff n h).mp hcs) hi

/-- `Config.new` on an empty argument list: the missing-query error. -/
theorem Config.new_nil (env : Option (List Char)) :
    Config.new [] env = Except.error missingQueryMsg := rfl

/-- `Config.new` with only the program name: the missing-query error. -/
theorem Config.new_one (p : List Char) (env : Option (List Char)) :
    Config.new [p] env = Except.error missingQueryMsg := rfl

/-- `Config.new` with a query but no filename: the missing-filename error. -/
theorem Config.new_two (p q : List Char) (env : Option (List Char)) :
    Config.new [p, q] env = Except.error missingFilenameMsg := rfl

/-- `Config.new` with query and filename present: a configuration. -/
theorem Config.new_many (p q f : List Char) (rest : List (List Char))
    (env : Option (List Char)) :
    Config.new (p :: q :: f :: rest) env =
      Except.ok { query := q, filename := f, case_sensitive := env.isNone } := rfl

/-- C1 as stated is violated by carriage-return line endings: with contents
"x\r\n" and query "\r", splitting the contents on the newline character alone
yields the line "x\r", which contains the query, yet `search` returns no line,
because the implementation strips the carriage return of a "\r\n" terminator. -/
theorem search_C1_counterexample :
    search (toL "\x0d") (toL "x\x0d\n") ≠
      (splitLinesSpec (toL "x\x0d\n")).filter
        (fun l => decide (toL "\x0d" <:+: l)) := by
  decide

/-- C1 (amended): `search` returns exactly the lines of the contents - the
contents split on the newline character, with a carriage return immediately
preceding a newline terminator also stripped, and with no trailing terminator
required on the final line - for which the query is an exact substring, each
returned line in original text and original order, with no case folding. -/
theorem search_C1 (query contents : List Char) :
    search query contents =
      (lines contents).filter (fun l => decide (query <:+: l)) := by
  unfold search
  exact List.filter_congr (fun l _ => containsSubstring_eq_decide query l)

/-- C2: `search_case_insensitive` returns exactly the lines of the contents
whose lowercase form contains the lowercase form of the query, each returned
line keeping its original non-folded text and its original position. -/
theorem search_case_insensitive_C2 (query contents : List Char) :
    search_case_insensitive query contents =
      (lines contents).filter
        (fun l => decide (toLowercase query <:+: toLowercase l)) := by
  unfold search_case_insensitive
  exact List.filter_congr
    (fun l _ => containsSubstring_eq_decide (toLowercase query) (toLowercase l))

/-- C3: the configuration resolver skips the first argument; it fails with the
missing-query error exactly when no query argument is available, fails with
the missing-filename error exactly when a query is present but no filename
follows, the two error values are distinguishable, and with both present it
returns the configuration holding them (extra arguments ignored). -/
theorem config_new_C3 (args : List (List Char)) (env : Option (List Char)) :
    (Config.new args env = Except.error missingQueryMsg ↔ args.length ≤ 1) ∧
    (Config.new args env = Except.error missingFilenameMsg ↔ args.length = 2) ∧
    missingQueryMsg ≠ missingFilenameMsg ∧
    (∀ p q f rest, args = p :: q :: f :: rest →
      Config.new args env =
        Except.ok { query := q, filename := f, case_sensitive := env.isNone }) := by
  have hmsg : missingQueryMsg ≠ missingFilenameMsg := by decide
  rcases args with _ | ⟨p, _ | ⟨q, _ | ⟨f, rest⟩⟩⟩
  · refine ⟨by simp [Config.new_nil], by simp [Config.new_nil, hmsg], hmsg, ?_⟩
    intro p q f rest h
    exact absurd h (by simp)
  · refine ⟨by simp [Config.new_one], by simp [Config.new_one, hmsg], hmsg, ?_⟩
    intro p' q f rest h
    exact absurd h (by simp)
  · refine ⟨by simp [Config.new_two, hmsg.symm], by simp [Config.new_two], hmsg, ?_⟩
    intro p' q' f rest h
    exact absurd h (by simp)
  · refine ⟨by simp [Config.new_many], by simp [Config.new_many], hmsg, ?_⟩
    intro p' q' f' rest' h
    rw [List.cons.injEq, List.cons.injEq, List.cons.injEq] at h
    obtain ⟨-, rfl, rfl, -⟩ := h
    exact Config.new_many p q f rest env

/-- Witness for C3 at a concrete argument list. -/
theorem config_new_C3_witness :
    Config.new [toL "prog", toL "q", toL "f"] none =
      Except.ok { query := toL "q", filename := toL "f", case_sensitive := true } :=
  (config_new_C3 [toL "prog", toL "q", toL "f"] none).2.2.2
    (toL "prog") (toL "q") (toL "f") [] rfl

/-- C4: a successfully constructed configuration is case-sensitive exactly
when the CASE_INSENSITIVE variable is unset, and only the presence of the
variable is inspected - any two set values yield identical results. -/
theorem config_case_C4 (args : List (List Char)) (env : Option (List Char)) :
    (∀ cfg, Config.new args env = Except.ok cfg →
      (cfg.case_sensitive = true ↔ env = none)) ∧
    (∀ v w, Config.new args (some v) = Config.new args (some w)) := by
  constructor
  · intro cfg h
    rcases args with _ | ⟨p, _ | ⟨q, _ | ⟨f, rest⟩⟩⟩
    · rw [Config.new_nil] at h
      exact absurd h (by simp)
    · rw [Config.new_one] at h
      exact absurd h (by simp)
    · rw [Config.new_two] at h
      exact absurd h (by simp)
    · rw [Config.new_many, Except.ok.injEq] at h
      subst h
      cases env <;> simp
  · intro v w
    rcases args with _ | ⟨p, _ | ⟨q, _ | ⟨f, rest⟩⟩⟩
    · rfl
    · rfl
    · rfl
    · rw [Config.new_many, Config.new_many]
      rfl

/-- Witness for C4 at a concrete argument list and unset variable. -/
theorem config_case_C4_witness :
    ({ query := toL "q", filename := toL "f", case_sensitive := true } : Config).case_sensitive
        = true ↔ (none : Option (List Char)) = none :=
  (config_case_C4 [toL "prog", toL "q", toL "f"] none).1
    { query := toL "q", filename := toL "f", case_sensitive := true } rfl

/-- C5: if reading the file fails, `run` propagates a FileReadError wrapping
the underlying error and writes nothing to standard output; if the read
succeeds, `run` prints exactly the results of the dispatched filter, one per
line in filter order, and returns success with no payload - also when there
are zero matches. -/
theorem run_C5 (readFile : List Char → Except (List Char) (List Char))
    (config : Config) :
    (∀ e, readFile config.filename = Except.error e →
      run readFile config = (Except.error (RunError.FileReadError e), [])) ∧
    (∀ contents, readFile config.filename = Except.ok contents →
      run readFile config =
        (Except.ok (),
          if config.case_sensitive then search config.query contents
          else search_case_insensitive config.query contents)) := by
  constructor
  · intro e h
    unfold run
    rw [h]
  · intro contents h
    unfold run
    rw [h]

/-- Witness for C5: a missing file yields the wrapped error and no output. -/
theorem run_C5_witness :
    run (fun _ => Except.error (toL "No such file or directory"))
        { query := toL "to", filename := toL "poem.txt", case_sensitive := true } =
      (Except.error (RunError.FileReadError (toL "No such file or directory")), []) :=
  (run_C5 (fun _ => Except.error (toL "No such file or directory"))
      { query := toL "to", filename := toL "poem.txt", case_sensitive := true }).1
    (toL "No such file or directory") rfl

/-- C6: the empty query matches every line - both filters return every line
of the contents, in original order. -/
theorem empty_query_C6 (contents : List Char) :
    search [] contents = lines contents ∧
    search_case_insensitive [] contents = lines contents := by
  constructor
  · unfold search
    rw [List.filter_eq_self]
    intro l _
    exact (containsSubstring_iff [] l).mpr List.nil_infix
  · show (lines contents).filter
        (fun line => containsSubstring (toLowercase []) (toLowercase line)) =
      lines contents
    rw [List.filter_eq_self]
    intro l _
    exact (containsSubstring_iff (toLowercase []) (toLowercase l)).mpr List.nil_infix

/-- C7: the number of lines scanned by either filter equals the number of
newline-delimited segments of the contents, and every element of the result
sequence is a verbatim contiguous substring of the contents. -/
theorem invariants_C7 (query contents : List Char) :
    (lines contents).length = segmentCount contents ∧
    (∀ l ∈ search query contents, l <:+: contents) ∧
    (∀ l ∈ search_case_insensitive query contents, l <:+: contents) := by
  refine ⟨lines_length contents, ?_, ?_⟩
  · intro l hl
    exact (lines_parts_verbatim contents).2 l (List.mem_of_mem_filter hl)
  · intro l hl
    exact (lines_parts_verbatim contents).2 l (List.mem_of_mem_filter hl)

/-- Witness for C7: a returned line is a substring of the searched text. -/
theorem invariants_C7_witness :
    toL "abc" <:+: toL "abc\n" :=
  (invariants_C7 (toL "abc") (toL "abc\n")).2.1 (toL "abc") (by decide)

/-- C8: both filter functions are deterministic - any two evaluations on the
same query and the same contents yield identical results. -/
theorem deterministic_C8 (q₁ c₁ q₂ c₂ : List Char) (hq : q₁ = q₂) (hc : c₁ = c₂) :
    search q₁ c₁ = search q₂ c₂ ∧
    search_case_insensitive q₁ c₁ = search_case_insensitive q₂ c₂ := by
  subst hq
  subst hc
  exact ⟨rfl, rfl⟩

/-- Witness for C8 at concrete inputs. -/
theorem deterministic_C8_witness :
    search (toL "duct") (toL "Duct tape.") = search (toL "duct") (toL "Duct tape.") ∧
    search_case_insensitive (toL "duct") (toL "Duct tape.") =
      search_case_insensitive (toL "duct") (toL "Duct tape.") :=
  deterministic_C8 (toL "duct") (toL "Duct tape.") (toL "duct") (toL "Duct tape.") rfl rfl

/-- C9 as stated is violated when a line body itself contains a carriage
return: the query "a\r", which ends in a carriage return, does match the
line "a\rb" of the contents "a\rb\r\n", a line terminated by "\r\n". -/
theorem crlf_C9_counterexample :
    search (toL "a\x0d") (toL "a\x0db\x0d\n") = [toL "a\x0db"] := by
  decide

/-- C9 (amended): no returned line of either filter contains a newline; the
carriage return of a "\r\n" terminator is stripped from the returned line
(searching "abc" in "abc\r\n" returns exactly "abc"); and a query ending in a
carriage return matches only lines retaining a carriage return in their body,
never via the stripped "\r\n" terminator itself. -/
theorem crlf_C9 :
    (∀ q c l, l ∈ search q c → '\n' ∉ l) ∧
    (∀ q c l, l ∈ search_case_insensitive q c → '\n' ∉ l) ∧
    search (toL "abc") (toL "abc\x0d\n") = [toL "abc"] ∧
    (∀ q c l, q.getLast? = some '\x0d' → l ∈ search q c → '\x0d' ∈ l) := by
  refine ⟨?_, ?_, by decide, ?_⟩
  · intro q c l hl
    exact lines_no_newline c l (List.mem_of_mem_filter hl)
  · intro q c l hl
    exact lines_no_newline c l (List.mem_of_mem_filter hl)
  · intro q c l hql hl
    have hinf : q <:+: l := (containsSubstring_iff q l).mp (List.of_mem_filter hl)
    have hmem : '\x0d' ∈ q := by
      obtain ⟨hne, heq⟩ := List.mem_getLast?_eq_getLast (Option.mem_def.mpr hql)
      rw [heq]
      exact List.getLast_mem hne
    exact hinf.sublist.subset hmem

/-- Witness for C9 at a concrete input. -/
theorem crlf_C9_witness :
    '\n' ∉ toL "abc" :=
  crlf_C9.1 (toL "abc") (toL "abc\x0d\n") (toL "abc") (by decide)

/-- C10 as stated is violated by contents ending in a carriage return:
"a\r" is nonempty and does not end in a newline, yet appending a newline
changes the result for the query "\r" - the final carriage return becomes
part of a "\r\n" terminator and is stripped. -/
theorem append_nl_C10_counterexample :
    (toL "a\x0d" ≠ ([] : List Char)) ∧
    (toL "a\x0d").getLast? ≠ some '\n' ∧
    search (toL "\x0d") (toL "a\x0d" ++ toL "\n") ≠ search (toL "\x0d") (toL "a\x0d") := by
  decide

/-- C10 (amended): for nonempty contents ending in neither a newline nor a
carriage return, appending a single trailing newline changes the result of
neither filter. -/
theorem append_nl_C10 (query contents : List Char) (h1 : contents ≠ [])
    (h2 : contents.getLast? ≠ some '\n') (h3 : contents.getLast? ≠ some '\x0d') :
    search query (contents ++ ['\n']) = search query contents ∧
    search_case_insensitive query (contents ++ ['\n']) =
      search_case_insensitive query contents := by
  have hl := lines_append_newline contents h1 h2 h3
  constructor
  · unfold search
    rw [hl]
  · unfold search_case_insensitive
    rw [hl]

/-- Witness for C10 at a concrete input. -/
theorem append_nl_C10_witness :
    search (toL "t") (toL "Duct" ++ ['\n']) = search (toL "t") (toL "Duct") ∧
    search_case_insensitive (toL "t") (toL "Duct" ++ ['\n']) =
      search_case_insensitive (toL "t") (toL "Duct") :=
  append_nl_C10 (toL "t") (toL "Duct") (by decide) (by decide) (by decide)

end Minigrep
